import Mathlib

/-!
Verification of the delegator scraper engine and its PostgreSQL store.

The development shallowly embeds:
* the domain record types (scraper/delegation.go, pkg/tzkt client types),
* the store operations LastProcessedID and SaveBatch (scraper/store/pgxstore),
  with the transaction modelled step by step so that failure at any step
  rolls back to the pre-transaction state, and
* the two-phase engine `Service.run` / `Service.syncBatch` (scraper/service.go),
  driven by an environment of oracles: feed responses, checkpoint-read and
  save failures, and a cancellation time, all indexed by a global interaction
  counter which doubles as the injected clock.
-/

namespace Delegator

/-- Tzkt API delegation (pkg/tzkt: Delegation struct). The timestamp and
address payloads are opaque to the engine; they are carried as plain data. -/
structure TzktDelegation where
  id : Int
  level : Int
  timestamp : Int
  senderAddress : String
  amount : Int
  deriving DecidableEq, Repr

/-- Domain delegation (scraper/delegation.go: Delegation struct). -/
structure Delegation where
  id : Int
  level : Int
  timestamp : Int
  delegator : String
  amount : Int
  deriving DecidableEq, Repr

/-- convertTzktDelegations (scraper/service.go): field-for-field conversion
from the API representation to the domain representation. -/
def convertTzktDelegations (tzktDelegations : List TzktDelegation) : List Delegation :=
  tzktDelegations.map fun tzktDel =>
    { id := tzktDel.id
      level := tzktDel.level
      timestamp := tzktDel.timestamp
      delegator := tzktDel.senderAddress
      amount := tzktDel.amount }

/-- Durable store state: the delegations table (rows in insertion order,
keyed by id) and the singleton scraper_checkpoint row (none when the table
holds no row yet). -/
structure StoreState where
  delegations : List Delegation
  checkpoint : Option Int
  deriving DecidableEq, Repr

/-- LastProcessedID (pgxstore): COALESCE(last_id, 0), and 0 when the
checkpoint table has no row. -/
def StoreState.lastProcessedID (s : StoreState) : Int :=
  s.checkpoint.getD 0

/-- Sentinel errors of the pgx store (pgxstore package). -/
inductive StoreErr where
  | transactionFailed
  | tempTableFailed
  | copyFailed
  | insertFailed
  | checkpointFailed
  deriving DecidableEq, Repr

/-- One INSERT ... ON CONFLICT (id) DO NOTHING pass: rows of the batch are
appended in order, each skipped when a row with the same id is already
present (which also collapses duplicate ids inside the batch itself). -/
def insertIgnoreConflicts (rows : List Delegation) (batch : List Delegation) : List Delegation :=
  batch.foldl (fun acc d => if acc.any fun r => r.id = d.id then acc else acc ++ [d]) rows

/-- Last id of a delegation list, 0 when empty (the store only evaluates it
on a non-empty batch). -/
def lastId (ds : List Delegation) : Int :=
  ((ds.getLast?).map Delegation.id).getD 0

/-- SaveBatch (pgxstore): an empty batch returns at once; otherwise a
transaction runs Begin, CREATE TEMPORARY TABLE, CopyFrom into the temporary
table, INSERT ... ON CONFLICT (id) DO NOTHING into delegations, the
checkpoint upsert to the last id of the batch, and Commit. The oracle
`fail` says which step (0–5 in that order) fails; any failure rolls the
transaction back, so the durable state is returned unchanged alongside the
classified error. The result is the durable state after the call paired
with the returned error, if any. -/
def SaveBatchTx (fail : Nat → Bool) (s : StoreState) (batch : List Delegation) :
    StoreState × Option StoreErr :=
  if batch.isEmpty then (s, none)
  else if fail 0 then (s, some .transactionFailed)
  else if fail 1 then (s, some .tempTableFailed)
  else if fail 2 then (s, some .copyFailed)
  else if fail 3 then (s, some .insertFailed)
  else if fail 4 then (s, some .checkpointFailed)
  else if fail 5 then (s, some .transactionFailed)
  else ({ delegations := insertIgnoreConflicts s.delegations batch
          checkpoint := some (lastId batch) }, none)

/-- SaveBatch on the failure-free path. -/
def SaveBatch (s : StoreState) (batch : List Delegation) : StoreState :=
  (SaveBatchTx (fun _ => false) s batch).1

/-- Cancellation cause carried by the context: context.Canceled or
context.DeadlineExceeded. -/
inductive CtxReason where
  | canceled
  | deadlineExceeded
  deriving DecidableEq, Repr

/-- Classified errors a sync cycle can return (scraper sentinel errors,
plus the raw ctx.Err() returned by the cancellation check at the top of
syncBatch). -/
inductive SyncErr where
  | ctxDone (r : CtxReason)
  | checkpointRetrieval
  | apiRequestFailed
  | saveBatchFailed (e : StoreErr)
  deriving DecidableEq, Repr

/-- Service lifecycle events (the eight variants of scraper.Event).
Times and durations are readings of the injected clock, here the global
interaction counter. -/
inductive Event where
  | backfillStarted (startedAt : Nat) (checkpointID : Int)
  | backfillSyncCompleted (fetched : Nat) (checkpointID : Int) (chunkSize : Nat)
  | backfillDone (totalProcessed : Nat) (duration : Nat)
  | backfillError (err : SyncErr)
  | pollingStarted (interval : Nat)
  | pollingSyncCompleted (fetched : Nat) (checkpointID : Int) (chunkSize : Nat)
  | pollingShutdown (reason : CtxReason)
  | pollingError (err : SyncErr)
  deriving DecidableEq, Repr

/-- Environment a run executes in. Time is a global counter advanced at
every external interaction; the oracles are indexed by it.
`fetch t limit cursor` is the feed response to GetDelegations with the
id.gt cursor at time t; `cpFail t` says whether the LastProcessedID query
at time t fails; `saveFail t k` says whether step k of the SaveBatch
transaction issued at time t fails; the context is cancelled from time
`cancelAt` on (never, when none) with cause `cancelReason`. -/
structure Env where
  chunkSize : Nat
  pollInterval : Nat
  cancelAt : Option Nat
  cancelReason : CtxReason
  fetch : Nat → Nat → Int → Except Unit (List TzktDelegation)
  cpFail : Nat → Bool
  saveFail : Nat → Nat → Bool

/-- Whether the context is already cancelled at time t. -/
def Env.cancelled (env : Env) (t : Nat) : Bool :=
  match env.cancelAt with
  | none => false
  | some c => c ≤ t

/-- SyncResult (scraper): count of fetched records and the checkpoint id
reported for the cycle. -/
structure SyncResult where
  count : Nat
  checkpointID : Int
  deriving DecidableEq, Repr

/-- Service.syncBatch: check the context, load the checkpoint, fetch with
the id.gt cursor, return count 0 on an empty batch, otherwise convert and
save atomically, reporting the last id of the batch as the new checkpoint.
Returns the outcome, the durable store state after the cycle, and the
advanced clock. -/
def syncBatch (env : Env) (st : StoreState) (t : Nat) :
    Except SyncErr SyncResult × StoreState × Nat :=
  if env.cancelled t then
    (.error (.ctxDone env.cancelReason), st, t + 1)
  else if env.cpFail (t + 1) then
    (.error .checkpointRetrieval, st, t + 2)
  else
    let checkpointID := st.lastProcessedID
    match env.fetch (t + 2) env.chunkSize checkpointID with
    | .error _ => (.error .apiRequestFailed, st, t + 3)
    | .ok batch =>
      if batch.isEmpty then
        (.ok ⟨0, checkpointID⟩, st, t + 3)
      else
        let domainDelegations := convertTzktDelegations batch
        match SaveBatchTx (env.saveFail (t + 3)) st domainDelegations with
        | (st1, some e) => (.error (.saveBatchFailed e), st1, t + 4)
        | (st1, none) => (.ok ⟨batch.length, lastId domainDelegations⟩, st1, t + 4)

/-- How the backfill loop ended. -/
inductive BackfillExit where
  | completed (total : Nat)
  | failed
  | fuelOut
  deriving DecidableEq, Repr

/-- The backfill loop of Service.run: repeat syncBatch, stopping with
`completed` on an empty batch, emitting BackfillSyncCompleted per
non-empty batch, and stopping with `failed` after emitting BackfillError
on any cycle error. Fuel bounds the number of iterations. -/
def backfillLoop (env : Env) : Nat → StoreState → Nat → Nat →
    List Event × StoreState × Nat × BackfillExit
  | 0, st, _total, t => ([], st, t, .fuelOut)
  | fuel + 1, st, total, t =>
    match syncBatch env st t with
    | (.error e, st1, t1) => ([.backfillError e], st1, t1, .failed)
    | (.ok r, st1, t1) =>
      if r.count = 0 then ([], st1, t1, .completed total)
      else
        let ev := Event.backfillSyncCompleted r.count r.checkpointID env.chunkSize
        let (evs, st2, t2, exit2) := backfillLoop env fuel st1 (total + r.count) t1
        (ev :: evs, st2, t2, exit2)

/-- The polling loop of Service.run: wait on the select between ctx.Done()
and the interval timer (the Done branch wins whenever cancellation occurs
no later than the tick), then run one syncBatch cycle, emitting
PollingError and continuing on error, PollingSyncCompleted otherwise.
The boolean records whether the loop returned (true only via shutdown);
fuel bounds the number of iterations. -/
def pollLoop (env : Env) : Nat → StoreState → Nat →
    List Event × StoreState × Nat × Bool
  | 0, st, t => ([], st, t, false)
  | fuel + 1, st, t =>
    let tick := t + env.pollInterval
    if env.cancelled tick then
      ([.pollingShutdown env.cancelReason], st, tick, true)
    else
      match syncBatch env st tick with
      | (.error e, st1, t1) =>
        let (evs, st2, t2, fin) := pollLoop env fuel st1 t1
        (.pollingError e :: evs, st2, t2, fin)
      | (.ok r, st1, t1) =>
        let (evs, st2, t2, fin) := pollLoop env fuel st1 t1
        (.pollingSyncCompleted r.count r.checkpointID env.chunkSize :: evs, st2, t2, fin)

/-- Outcome of a run: the emitted events in order, the final durable store
state, whether run returned (events channel closed, done resolved), and
the final clock. -/
structure RunResult where
  events : List Event
  store : StoreState
  finished : Bool
  time : Nat
  deriving DecidableEq, Repr

/-- Service.run: read the starting checkpoint (a failure yields a lone
BackfillError), emit BackfillStarted, run the backfill loop, then on
completed backfill emit BackfillDone and PollingStarted and enter the
polling loop. `fuelB` and `fuelP` bound the two loops. -/
def run (env : Env) (st : StoreState) (fuelB fuelP : Nat) : RunResult :=
  let start := 0
  if env.cpFail start then
    { events := [.backfillError .checkpointRetrieval]
      store := st, finished := true, time := start + 1 }
  else
    let startingCheckpointID := st.lastProcessedID
    let ev0 := Event.backfillStarted start startingCheckpointID
    match backfillLoop env fuelB st 0 (start + 1) with
    | (evs, st1, t1, .failed) =>
      { events := ev0 :: evs, store := st1, finished := true, time := t1 }
    | (evs, st1, t1, .fuelOut) =>
      { events := ev0 :: evs, store := st1, finished := false, time := t1 }
    | (evs, st1, t1, .completed total) =>
      let evDone := Event.backfillDone total (t1 - start)
      let evPoll := Event.pollingStarted env.pollInterval
      let (evs2, st2, t2, fin) := pollLoop env fuelP st1 t1
      { events := ev0 :: evs ++ evDone :: evPoll :: evs2
        store := st2, finished := fin, time := t2 }

/-- A concrete API delegation whose payload fields are derived from its id,
used to build explicit feeds. -/
def mkTz (i : Int) : TzktDelegation :=
  { id := i, level := i, timestamp := i, senderAddress := "tz1", amount := i }

/-- The domain image of `mkTz i` under the conversion. -/
def mkRec (i : Int) : Delegation :=
  { id := i, level := i, timestamp := i, delegator := "tz1", amount := i }

/-- A feed backed by a fixed list: every fetch filters by the id.gt cursor
and returns the first `limit` surviving records, at any time. -/
def listFetch (feed : List TzktDelegation) : Nat → Nat → Int → Except Unit (List TzktDelegation) :=
  fun _ limit cursor => .ok ((feed.filter fun d => cursor < d.id).take limit)

/-- An environment with a list-backed feed and no injected failures. -/
def pureEnv (chunk interval : Nat) (cancelAt : Option Nat) (feed : List TzktDelegation) : Env :=
  { chunkSize := chunk
    pollInterval := interval
    cancelAt := cancelAt
    cancelReason := .canceled
    fetch := listFetch feed
    cpFail := fun _ => false
    saveFail := fun _ _ => false }

/-- A delegation list sorted strictly ascending by id (the feed invariant
relied upon to derive the checkpoint from the last element). -/
def Ascending (ds : List Delegation) : Prop :=
  ds.Pairwise fun a b => a.id < b.id

/-- A tzkt batch sorted strictly ascending by id. -/
def AscendingTz (ds : List TzktDelegation) : Prop :=
  ds.Pairwise fun a b => a.id < b.id

/-- Number of stored rows carrying a given id. -/
def countId (ds : List Delegation) (i : Int) : Nat :=
  ds.countP fun r => decide (r.id = i)

/-- The checkpoint is the maximum id over the stored rows: it bounds every
stored id and is attained by one of them whenever any row exists. -/
def CheckpointIsMax (st : StoreState) : Prop :=
  (∀ d ∈ st.delegations, d.id ≤ st.lastProcessedID) ∧
  (st.delegations ≠ [] → ∃ d ∈ st.delegations, d.id = st.lastProcessedID)

/-- The feed contract assumed of the remote client: every successful fetch
is sorted strictly ascending by id and only returns ids above the cursor. -/
def FeedOrdered (env : Env) : Prop :=
  ∀ t limit c b, env.fetch t limit c = .ok b →
    AscendingTz b ∧ ∀ d ∈ b, c < d.id

/-- Store state and clock after n consecutive syncBatch cycles. -/
def cycleState (env : Env) (st : StoreState) (t : Nat) : Nat → StoreState × Nat
  | 0 => (st, t)
  | n + 1 =>
    let s := cycleState env st t n
    (syncBatch env s.1 s.2).2

/-- The feed records with ids K+1 .. K+n, in ascending order. -/
def tzRange (K : Int) : Nat → List TzktDelegation
  | 0 => []
  | n + 1 => mkTz (K + 1) :: tzRange (K + 1) n

/-- The domain records with ids K+1 .. K+n, in ascending order. -/
def recRange (K : Int) : Nat → List Delegation
  | 0 => []
  | n + 1 => mkRec (K + 1) :: recRange (K + 1) n

/-- Some stored row carries the given id. -/
def HasId (ds : List Delegation) (i : Int) : Prop :=
  ∃ r ∈ ds, r.id = i

lemma any_id_eq_true {rows : List Delegation} {i : Int} :
    (rows.any fun r => r.id = i) = true ↔ HasId rows i := by
  simp [List.any_eq_true, HasId]

lemma insertIgnoreConflicts_nil (rows : List Delegation) :
    insertIgnoreConflicts rows [] = rows := rfl

lemma insertIgnoreConflicts_cons (rows : List Delegation) (d : Delegation)
    (b : List Delegation) :
    insertIgnoreConflicts rows (d :: b) =
      insertIgnoreConflicts (if rows.any fun r => r.id = d.id then rows else rows ++ [d]) b := rfl

lemma mem_of_mem_insertIgnoreConflicts {rows b : List Delegation} {r : Delegation}
    (h : r ∈ insertIgnoreConflicts rows b) : r ∈ rows ∨ r ∈ b := by
  induction b generalizing rows with
  | nil => exact .inl h
  | cons d b ih =>
    rw [insertIgnoreConflicts_cons] at h
    rcases ih h with h1 | h1
    · by_cases hc : (rows.any fun r => r.id = d.id) = true
      · simp only [hc, if_pos] at h1
        exact .inl h1
      · simp only [hc, if_neg, not_false_iff] at h1
        rcases List.mem_append.mp h1 with h2 | h2
        · exact .inl h2
        · simp only [List.mem_singleton] at h2
          exact .inr (h2 ▸ List.mem_cons_self d b)
    · exact .inr (List.mem_cons_of_mem d h1)

lemma hasId_insertIgnoreConflicts_of_hasId {rows b : List Delegation} {i : Int}
    (h : HasId rows i) : HasId (insertIgnoreConflicts rows b) i := by
  induction b generalizing rows with
  | nil => exact h
  | cons d b ih =>
    rw [insertIgnoreConflicts_cons]
    apply ih
    by_cases hc : (rows.any fun r => r.id = d.id) = true
    · simpa [hc] using h
    · obtain ⟨r, hr, hri⟩ := h
      exact ⟨r, by simp [hc, List.mem_append, hr], hri⟩

lemma hasId_insertIgnoreConflicts_of_mem {rows b : List Delegation} {d : Delegation}
    (h : d ∈ b) : HasId (insertIgnoreConflicts rows b) d.id := by
  induction b generalizing rows with
  | nil => simp at h
  | cons e b ih =>
    rw [insertIgnoreConflicts_cons]
    rcases List.mem_cons.mp h with rfl | h1
    · by_cases hc : (rows.any fun r => r.id = d.id) = true
      · rw [if_pos hc]
        exact hasId_insertIgnoreConflicts_of_hasId (any_id_eq_true.mp hc)
      · rw [if_neg hc]
        exact hasId_insertIgnoreConflicts_of_hasId
          ⟨d, by simp [List.mem_append], rfl⟩
    · exact ih h1

lemma insertIgnoreConflicts_disjoint {rows b : List Delegation}
    (hd : ∀ d ∈ b, ¬ HasId rows d.id)
    (hb : b.Pairwise fun x y => x.id ≠ y.id) :
    insertIgnoreConflicts rows b = rows ++ b := by
  induction b generalizing rows with
  | nil => simp [insertIgnoreConflicts_nil]
  | cons d b ih =>
    rw [insertIgnoreConflicts_cons]
    have hc : (rows.any fun r => r.id = d.id) = false := by
      rw [← Bool.not_eq_true, any_id_eq_true]
      exact hd d (List.mem_cons_self d b)
    rw [hc]
    simp only [Bool.false_eq_true, if_neg, not_false_iff]
    rw [ih]
    · simp
    · intro e he ⟨r, hr, hri⟩
      rcases List.mem_append.mp hr with h1 | h1
      · exact hd e (List.mem_cons_of_mem d he) ⟨r, h1, hri⟩
      · simp only [List.mem_singleton] at h1
        exact (List.pairwise_cons.mp hb).1 e he (h1 ▸ hri)
    · exact (List.pairwise_cons.mp hb).2

lemma insertIgnoreConflicts_of_all_hasId {rows b : List Delegation}
    (h : ∀ d ∈ b, HasId rows d.id) :
    insertIgnoreConflicts rows b = rows := by
  induction b generalizing rows with
  | nil => rfl
  | cons d b ih =>
    rw [insertIgnoreConflicts_cons]
    have hc : (rows.any fun r => r.id = d.id) = true :=
      any_id_eq_true.mpr (h d (List.mem_cons_self d b))
    rw [if_pos hc]
    exact ih fun e he => h e (List.mem_cons_of_mem d he)

lemma countId_append (a b : List Delegation) (i : Int) :
    countId (a ++ b) i = countId a i + countId b i := by
  simp [countId, List.countP_append]

lemma countId_eq_zero {rows : List Delegation} {i : Int} :
    countId rows i = 0 ↔ ¬ HasId rows i := by
  simp [countId, List.countP_eq_zero, HasId]

lemma countId_pos {rows : List Delegation} {i : Int} :
    0 < countId rows i ↔ HasId rows i := by
  simp [countId, List.countP_pos_iff, HasId]

lemma countId_insertIgnoreConflicts_le_one {rows b : List Delegation}
    (h : ∀ i, countId rows i ≤ 1) :
    ∀ i, countId (insertIgnoreConflicts rows b) i ≤ 1 := by
  induction b generalizing rows with
  | nil => exact h
  | cons d b ih =>
    rw [insertIgnoreConflicts_cons]
    by_cases hc : (rows.any fun r => r.id = d.id) = true
    · rw [if_pos hc]
      exact ih h
    · rw [if_neg hc]
      apply ih
      intro i
      rw [countId_append]
      by_cases hi : d.id = i
      · have h0 : countId rows i = 0 := by
          rw [countId_eq_zero]
          rw [any_id_eq_true] at hc
          exact hi ▸ hc
        have h1 : countId [d] i ≤ 1 := by
          by_cases hd : d.id = i <;> simp [countId, hd]
        omega
      · have h1 : countId [d] i = 0 := by simp [countId, hi]
        have h2 := h i
        omega

lemma lastId_mem {ds : List Delegation} (h : ds ≠ []) :
    ∃ d ∈ ds, d.id = lastId ds := by
  refine ⟨ds.getLast h, List.getLast_mem h, ?_⟩
  simp [lastId, List.getLast?_eq_getLast ds h]

lemma le_lastId_of_ascending {ds : List Delegation} (ha : Ascending ds) :
    ∀ d ∈ ds, d.id ≤ lastId ds := by
  induction ds with
  | nil => simp
  | cons a t ih =>
    intro d hd
    rcases List.mem_cons.mp hd with rfl | h1
    · cases t with
      | nil => simp [lastId]
      | cons b u =>
        have hne : (b :: u) ≠ ([] : List Delegation) := by simp
        obtain ⟨e, he, hei⟩ := lastId_mem hne
        have hlt : d.id < e.id := (List.pairwise_cons.mp ha).1 e he
        have : lastId (d :: b :: u) = lastId (b :: u) := by
          simp [lastId, List.getLast?]
        rw [this, ← hei]
        exact le_of_lt hlt
    · have ht : Ascending t := (List.pairwise_cons.mp ha).2
      cases t with
      | nil => simp at h1
      | cons b u =>
        have : lastId (a :: b :: u) = lastId (b :: u) := by
          simp [lastId, List.getLast?]
        rw [this]
        exact ih ht d h1

lemma saveBatchTx_rollback {fail : Nat → Bool} {st : StoreState} {batch : List Delegation}
    (h : (SaveBatchTx fail st batch).2.isSome = true) :
    (SaveBatchTx fail st batch).1 = st := by
  unfold SaveBatchTx at *
  by_cases h0 : batch.isEmpty
  · simp [h0]
  · simp only [h0, Bool.false_eq_true, if_neg, not_false_iff] at h ⊢
    by_cases h1 : fail 0 <;> by_cases h2 : fail 1 <;> by_cases h3 : fail 2 <;>
      by_cases h4 : fail 3 <;> by_cases h5 : fail 4 <;> by_cases h6 : fail 5 <;>
      simp_all

lemma saveBatchTx_commit {fail : Nat → Bool} {st : StoreState} {batch : List Delegation}
    (hne : batch ≠ []) (h : (SaveBatchTx fail st batch).2 = none) :
    (SaveBatchTx fail st batch).1 =
      { delegations := insertIgnoreConflicts st.delegations batch
        checkpoint := some (lastId batch) } := by
  unfold SaveBatchTx at *
  have h0 : batch.isEmpty = false := by
    cases batch with
    | nil => exact absurd rfl hne
    | cons a t => rfl
  simp only [h0, Bool.false_eq_true, if_neg, not_false_iff] at h ⊢
  by_cases h1 : fail 0 <;> by_cases h2 : fail 1 <;> by_cases h3 : fail 2 <;>
    by_cases h4 : fail 3 <;> by_cases h5 : fail 4 <;> by_cases h6 : fail 5 <;>
    simp_all

lemma saveBatchTx_noFail_none (st : StoreState) (b : List Delegation) :
    (SaveBatchTx (fun _ => false) st b).2 = none := by
  unfold SaveBatchTx
  by_cases h : b.isEmpty <;> simp [h]

lemma saveBatch_eq (st : StoreState) {b : List Delegation} (hne : b ≠ []) :
    SaveBatch st b =
      { delegations := insertIgnoreConflicts st.delegations b
        checkpoint := some (lastId b) } := by
  unfold SaveBatch
  exact saveBatchTx_commit hne (saveBatchTx_noFail_none st b)

/-- C2. Batch-save atomicity: for every failure pattern of the transaction
steps and every non-empty id-ascending batch, SaveBatch either persists the
whole batch (every batch id is present afterwards) and moves the checkpoint
to the last id of the batch, which bounds every id in it, or reports an
error and leaves the durable state exactly as it was. -/
theorem c2_saveBatch_atomicity (fail : Nat → Bool) (st : StoreState)
    (batch : List Delegation) (hne : batch ≠ []) (hasc : Ascending batch) :
    (SaveBatchTx fail st batch =
        ({ delegations := insertIgnoreConflicts st.delegations batch
           checkpoint := some (lastId batch) }, none)
      ∧ (∀ d ∈ batch, d.id ≤ lastId batch)
      ∧ (∀ d ∈ batch, HasId (insertIgnoreConflicts st.delegations batch) d.id))
    ∨ ((SaveBatchTx fail st batch).1 = st ∧ (SaveBatchTx fail st batch).2.isSome = true) := by
  cases ho : (SaveBatchTx fail st batch).2 with
  | some e =>
    right
    exact ⟨saveBatchTx_rollback (by simp [ho]), by simp [ho]⟩
  | none =>
    left
    refine ⟨?_, le_lastId_of_ascending hasc, fun d hd => hasId_insertIgnoreConflicts_of_mem hd⟩
    rw [Prod.ext_iff]
    exact ⟨saveBatchTx_commit hne ho, ho⟩

/-- C2 witness: the failure-free transaction on the concrete ascending batch
with ids 1, 2. -/
theorem c2_saveBatch_atomicity_witness :
    (SaveBatchTx (fun _ => false) ⟨[], none⟩ [mkRec 1, mkRec 2] =
        ({ delegations := insertIgnoreConflicts [] [mkRec 1, mkRec 2]
           checkpoint := some (lastId [mkRec 1, mkRec 2]) }, none)
      ∧ (∀ d ∈ [mkRec 1, mkRec 2], d.id ≤ lastId [mkRec 1, mkRec 2])
      ∧ (∀ d ∈ [mkRec 1, mkRec 2], HasId (insertIgnoreConflicts [] [mkRec 1, mkRec 2]) d.id))
    ∨ ((SaveBatchTx (fun _ => false) ⟨[], none⟩ [mkRec 1, mkRec 2]).1 = ⟨[], none⟩
      ∧ (SaveBatchTx (fun _ => false) ⟨[], none⟩ [mkRec 1, mkRec 2]).2.isSome = true) :=
  c2_saveBatch_atomicity (fun _ => false) ⟨[], none⟩ [mkRec 1, mkRec 2]
    (by simp) (by unfold Ascending mkRec; simp)

/-- C4. Duplicate safety: saving the same batch twice stores exactly one
copy of each batch record (when the table held at most one row per id to
begin with), the repeated call is a no-op on the store, and the repeated
call reports no error. -/
theorem c4_saveBatch_duplicate_safety (st : StoreState) (b : List Delegation)
    (hread : ∀ i, countId st.delegations i ≤ 1) :
    SaveBatch (SaveBatch st b) b = SaveBatch st b
    ∧ (SaveBatchTx (fun _ => false) (SaveBatch st b) b).2 = none
    ∧ ∀ d ∈ b, countId (SaveBatch (SaveBatch st b) b).delegations d.id = 1 := by
  by_cases hne : b = []
  · subst hne
    refine ⟨rfl, saveBatchTx_noFail_none _ _, by simp⟩
  · have h1 : SaveBatch st b =
        { delegations := insertIgnoreConflicts st.delegations b
          checkpoint := some (lastId b) } := saveBatch_eq st hne
    have hall : ∀ d ∈ b, HasId (SaveBatch st b).delegations d.id := by
      intro d hd
      rw [h1]
      exact hasId_insertIgnoreConflicts_of_mem hd
    have h2 : SaveBatch (SaveBatch st b) b = SaveBatch st b := by
      rw [saveBatch_eq (SaveBatch st b) hne]
      rw [insertIgnoreConflicts_of_all_hasId hall]
      rw [h1]
    refine ⟨h2, saveBatchTx_noFail_none _ _, ?_⟩
    intro d hd
    rw [h2]
    have hle : countId (SaveBatch st b).delegations d.id ≤ 1 := by
      rw [h1]
      exact countId_insertIgnoreConflicts_le_one hread d.id
    have hpos : 0 < countId (SaveBatch st b).delegations d.id :=
      countId_pos.mpr (hall d hd)
    omega

/-- C4 witness: a concrete batch that even repeats an id internally, saved
twice into the empty store. -/
theorem c4_saveBatch_duplicate_safety_witness :
    SaveBatch (SaveBatch ⟨[], none⟩ [mkRec 1, mkRec 1]) [mkRec 1, mkRec 1] =
        SaveBatch ⟨[], none⟩ [mkRec 1, mkRec 1]
    ∧ (SaveBatchTx (fun _ => false) (SaveBatch ⟨[], none⟩ [mkRec 1, mkRec 1])
        [mkRec 1, mkRec 1]).2 = none
    ∧ ∀ d ∈ [mkRec 1, mkRec 1],
        countId (SaveBatch (SaveBatch ⟨[], none⟩ [mkRec 1, mkRec 1])
          [mkRec 1, mkRec 1]).delegations d.id = 1 :=
  c4_saveBatch_duplicate_safety ⟨[], none⟩ [mkRec 1, mkRec 1]
    (by intro i; simp [countId])

/-- C9. SaveBatch on an empty list is a total no-op: whatever failure
pattern the transaction oracle would inject, the call returns success and
leaves the store untouched, because no transaction is even started. -/
theorem c9_saveBatch_empty_noop (fail : Nat → Bool) (s : StoreState) :
    SaveBatchTx fail s [] = (s, none) := rfl

/-- C10. A checkpoint-retrieval failure at startup makes the run emit
exactly one event, a BackfillError wrapping the checkpoint error, leave the
store untouched and terminate; in particular no BackfillStarted precedes
it. -/
theorem c10_checkpoint_failure_lone_error (env : Env) (st : StoreState)
    (fuelB fuelP : Nat) (h : env.cpFail 0 = true) :
    run env st fuelB fuelP =
      { events := [.backfillError .checkpointRetrieval]
        store := st, finished := true, time := 1 } := by
  unfold run
  simp [h]

/-- C10 witness: the run in an environment whose checkpoint read always
fails. -/
theorem c10_checkpoint_failure_lone_error_witness :
    run { chunkSize := 1, pollInterval := 1, cancelAt := none, cancelReason := .canceled,
          fetch := fun _ _ _ => .ok [], cpFail := fun _ => true, saveFail := fun _ _ => false }
        ⟨[], none⟩ 2 2 =
      { events := [.backfillError .checkpointRetrieval]
        store := ⟨[], none⟩, finished := true, time := 1 } :=
  c10_checkpoint_failure_lone_error _ ⟨[], none⟩ 2 2 rfl

lemma convert_ids_lt {b : List TzktDelegation} {c : Int} (h : ∀ d ∈ b, c < d.id) :
    ∀ d ∈ convertTzktDelegations b, c < d.id := by
  intro d hd
  simp only [convertTzktDelegations, List.mem_map] at hd
  obtain ⟨x, hx, rfl⟩ := hd
  exact h x hx

lemma convert_ascending {b : List TzktDelegation} (h : AscendingTz b) :
    Ascending (convertTzktDelegations b) :=
  List.Pairwise.map _ (fun _ _ hab => hab) h

lemma convert_ne_nil {b : List TzktDelegation} (h : b.isEmpty = false) :
    convertTzktDelegations b ≠ [] := by
  cases b with
  | nil => simp at h
  | cons a t => simp [convertTzktDelegations]

/-- One syncBatch cycle never lowers the checkpoint and keeps it equal to
the maximum stored id, provided the feed honors the cursor contract. -/
lemma syncBatch_cases (env : Env) (st : StoreState) (t : Nat) (hF : FeedOrdered env)
    (hInv : CheckpointIsMax st) :
    st.lastProcessedID ≤ (syncBatch env st t).2.1.lastProcessedID
    ∧ CheckpointIsMax (syncBatch env st t).2.1 := by
  unfold syncBatch
  by_cases h1 : env.cancelled t
  · rw [if_pos h1]
    exact ⟨le_refl _, hInv⟩
  rw [if_neg h1]
  by_cases h2 : env.cpFail (t + 1)
  · rw [if_pos h2]
    exact ⟨le_refl _, hInv⟩
  rw [if_neg h2]
  cases hf : env.fetch (t + 2) env.chunkSize st.lastProcessedID with
  | error e =>
    simp only [hf]
    exact ⟨le_refl _, hInv⟩
  | ok batch =>
    by_cases hbe : batch.isEmpty
    · simp only [hf, hbe, if_true]
      exact ⟨le_refl _, hInv⟩
    · obtain ⟨hascTz, hgtTz⟩ := hF (t + 2) env.chunkSize st.lastProcessedID batch hf
      have hdne : convertTzktDelegations batch ≠ [] := convert_ne_nil (by simpa using hbe)
      have hasc : Ascending (convertTzktDelegations batch) := convert_ascending hascTz
      have hgt : ∀ d ∈ convertTzktDelegations batch, st.lastProcessedID < d.id :=
        convert_ids_lt hgtTz
      rcases hsv : SaveBatchTx (env.saveFail (t + 3)) st (convertTzktDelegations batch)
        with ⟨st1, o⟩
      cases o with
      | some err =>
        have hroll : st1 = st := by
          have h4 := @saveBatchTx_rollback (env.saveFail (t + 3)) st
            (convertTzktDelegations batch) (by rw [hsv]; rfl)
          rw [hsv] at h4
          exact h4
        subst hroll
        simp only [hf, hsv]
        rw [if_neg hbe]
        exact ⟨le_refl _, hInv⟩
      | none =>
        have hcom : st1 =
            { delegations := insertIgnoreConflicts st.delegations (convertTzktDelegations batch)
              checkpoint := some (lastId (convertTzktDelegations batch)) } := by
          have h4 := @saveBatchTx_commit (env.saveFail (t + 3)) st
            (convertTzktDelegations batch) hdne (by rw [hsv])
          rw [hsv] at h4
          exact h4
        subst hcom
        obtain ⟨e, he, hei⟩ := lastId_mem hdne
        have hlt : st.lastProcessedID < lastId (convertTzktDelegations batch) :=
          hei ▸ hgt e he
        simp only [hf, hsv]
        rw [if_neg hbe]
        refine ⟨?_, ?_, ?_⟩
        · simpa [StoreState.lastProcessedID] using le_of_lt hlt
        · intro r hr
          simp only [StoreState.lastProcessedID, Option.getD_some]
          rcases mem_of_mem_insertIgnoreConflicts hr with h3 | h3
          · exact le_trans (hInv.1 r h3) (le_of_lt hlt)
          · exact le_lastId_of_ascending hasc r h3
        · intro _
          obtain ⟨r, hr, hri⟩ :=
            @hasId_insertIgnoreConflicts_of_mem st.delegations _ _ he
          exact ⟨r, hr, by simp [StoreState.lastProcessedID, hri, hei]⟩

/-- C1. Checkpoint monotonicity: over any sequence of fetch-and-save
cycles against a feed that returns id-ascending batches strictly above the
cursor, the checkpoint after cycle n+1 is at least the checkpoint after
cycle n, and after every cycle the checkpoint is the maximum id over all
records stored so far; it never regresses. -/
theorem c1_checkpoint_monotonicity (env : Env) (st0 : StoreState) (t0 : Nat)
    (hF : FeedOrdered env) (h0 : CheckpointIsMax st0) (n : Nat) :
    (cycleState env st0 t0 n).1.lastProcessedID ≤
      (cycleState env st0 t0 (n + 1)).1.lastProcessedID
    ∧ CheckpointIsMax (cycleState env st0 t0 (n + 1)).1 := by
  have hInv : ∀ m, CheckpointIsMax (cycleState env st0 t0 m).1 := by
    intro m
    induction m with
    | zero => exact h0
    | succ k ih =>
      exact (syncBatch_cases env (cycleState env st0 t0 k).1 (cycleState env st0 t0 k).2
        hF ih).2
  exact ⟨(syncBatch_cases env (cycleState env st0 t0 n).1 (cycleState env st0 t0 n).2
    hF (hInv n)).1, hInv (n + 1)⟩

/-- An environment whose feed always serves the single next record after
the cursor. -/
def stepFeedEnv : Env :=
  { chunkSize := 1, pollInterval := 5, cancelAt := none, cancelReason := .canceled
    fetch := fun _ _ c => .ok [mkTz (c + 1)]
    cpFail := fun _ => false, saveFail := fun _ _ => false }

lemma stepFeedEnv_ordered : FeedOrdered stepFeedEnv := by
  intro t limit c b hb
  have hb1 : b = [mkTz (c + 1)] := by
    injection hb with h
    exact h.symm
  subst hb1
  constructor
  · simp [AscendingTz]
  · intro d hd
    simp only [List.mem_singleton] at hd
    subst hd
    simp [mkTz]

/-- C1 witness: two cycles against the single-record feed from the empty
store. -/
theorem c1_checkpoint_monotonicity_witness :
    (cycleState stepFeedEnv ⟨[], some 0⟩ 0 2).1.lastProcessedID ≤
      (cycleState stepFeedEnv ⟨[], some 0⟩ 0 3).1.lastProcessedID
    ∧ CheckpointIsMax (cycleState stepFeedEnv ⟨[], some 0⟩ 0 3).1 :=
  c1_checkpoint_monotonicity stepFeedEnv ⟨[], some 0⟩ 0 stepFeedEnv_ordered
    (by constructor <;> simp [StoreState.lastProcessedID]) 2

/-- An environment whose feed request fails at every call. -/
def failFeedEnv : Env :=
  { chunkSize := 10, pollInterval := 5, cancelAt := none, cancelReason := .canceled
    fetch := fun _ _ _ => .error ()
    cpFail := fun _ => false, saveFail := fun _ _ => false }

/-- An environment whose feed is empty at every call and whose context is
cancelled from time c on with the given cause. -/
def emptyFeedCancelEnv (B I c : Nat) (r : CtxReason) : Env :=
  { chunkSize := B, pollInterval := I, cancelAt := some c, cancelReason := r
    fetch := fun _ _ _ => .ok []
    cpFail := fun _ => false, saveFail := fun _ _ => false }

/-- An environment whose feed errors exactly on the fetch of the first
polling tick (time 11) and is empty otherwise; cancelled from time 21. -/
def transientErrEnv : Env :=
  { chunkSize := 10, pollInterval := 5, cancelAt := some 21, cancelReason := .canceled
    fetch := fun t _ _ => if t = 11 then .error () else .ok []
    cpFail := fun _ => false, saveFail := fun _ _ => false }

/-- An environment whose feed is empty during backfill (times up to 3) and
serves the single record with id 6 afterwards; cancelled from time 14. -/
def pollScenarioEnv : Env :=
  { chunkSize := 10, pollInterval := 5, cancelAt := some 14, cancelReason := .canceled
    fetch := fun t limit cursor => if t ≤ 3 then .ok [] else listFetch [mkTz 6] t limit cursor
    cpFail := fun _ => false, saveFail := fun _ _ => false }

lemma syncBatch_empty_batch (env : Env) (st : StoreState) (t : Nat)
    (h1 : env.cancelled t = false) (h2 : env.cpFail (t + 1) = false)
    (h3 : env.fetch (t + 2) env.chunkSize st.lastProcessedID = .ok []) :
    syncBatch env st t = (.ok ⟨0, st.lastProcessedID⟩, st, t + 3) := by
  unfold syncBatch
  rw [if_neg (by simp [h1]), if_neg (by simp [h2])]
  simp [h3]

/-- Whether an event is a BackfillError. -/
def isBackfillError : Event → Bool
  | .backfillError _ => true
  | _ => false

lemma backfillLoop_shape (env : Env) : ∀ fuel st total t,
    (∀ e ∈ (backfillLoop env fuel st total t).1,
      (∃ x, e = Event.backfillError x) ∨ ∃ a b c, e = Event.backfillSyncCompleted a b c)
    ∧ ((backfillLoop env fuel st total t).1.countP isBackfillError =
        if (backfillLoop env fuel st total t).2.2.2 = BackfillExit.failed then 1 else 0) := by
  intro fuel
  induction fuel with
  | zero =>
    intro st total t
    simp [backfillLoop]
  | succ k ih =>
    intro st total t
    rcases h : syncBatch env st t with ⟨o, st1, t1⟩
    cases o with
    | error e =>
      simp only [backfillLoop, h]
      refine ⟨?_, by simp [isBackfillError]⟩
      intro ev hev
      simp only [List.mem_singleton] at hev
      exact .inl ⟨e, hev⟩
    | ok r =>
      by_cases hc : r.count = 0
      · simp only [backfillLoop, h, hc, if_true]
        exact ⟨by simp, by simp⟩
      · rcases hbl : backfillLoop env k st1 (total + r.count) t1 with ⟨evs, st2, t2, x2⟩
        have ihs := ih st1 (total + r.count) t1
        rw [hbl] at ihs
        simp only [backfillLoop, h, hc, if_false, hbl]
        constructor
        · intro ev hev
          rcases List.mem_cons.mp hev with rfl | hev1
          · exact .inr ⟨r.count, r.checkpointID, env.chunkSize, rfl⟩
          · exact ihs.1 ev hev1
        · simpa [List.countP_cons, isBackfillError] using ihs.2

lemma pollLoop_shape (env : Env) : ∀ fuel st t, ∀ e ∈ (pollLoop env fuel st t).1,
    (∃ r, e = Event.pollingShutdown r) ∨ (∃ x, e = Event.pollingError x)
    ∨ ∃ a b c, e = Event.pollingSyncCompleted a b c := by
  intro fuel
  induction fuel with
  | zero => intro st t e he; simp [pollLoop] at he
  | succ k ih =>
    intro st t e he
    by_cases hca : env.cancelled (t + env.pollInterval)
    · rw [pollLoop, if_pos hca] at he
      simp only [List.mem_singleton] at he
      exact .inl ⟨env.cancelReason, he⟩
    · rw [pollLoop, if_neg hca] at he
      rcases h : syncBatch env st (t + env.pollInterval) with ⟨o, st1, t1⟩
      cases o with
      | error x =>
        rw [h] at he
        rcases hpl : pollLoop env k st1 t1 with ⟨evs, st2, t2, fin⟩
        simp only [hpl] at he
        rcases List.mem_cons.mp he with rfl | he1
        · exact .inr (.inl ⟨x, rfl⟩)
        · have := ih st1 t1 e
          rw [hpl] at this
          exact this he1
      | ok r =>
        rw [h] at he
        rcases hpl : pollLoop env k st1 t1 with ⟨evs, st2, t2, fin⟩
        simp only [hpl] at he
        rcases List.mem_cons.mp he with rfl | he1
        · exact .inr (.inr ⟨r.count, r.checkpointID, env.chunkSize, rfl⟩)
        · have := ih st1 t1 e
          rw [hpl] at this
          exact this he1

lemma pollLoop_no_data (env : Env) (st : StoreState)
    (hca : env.cancelAt = none)
    (hcp : ∀ t, env.cpFail t = false)
    (hfeed : ∀ t limit, env.fetch t limit st.lastProcessedID = .ok []) :
    ∀ fuel t, (pollLoop env fuel st t).2.1 = st := by
  intro fuel
  induction fuel with
  | zero => intro t; rfl
  | succ k ih =>
    intro t
    have hc : env.cancelled (t + env.pollInterval) = false := by
      simp [Env.cancelled, hca]
    have hs := syncBatch_empty_batch env st (t + env.pollInterval) hc (hcp _) (hfeed _ _)
    rcases hpl : pollLoop env k st (t + env.pollInterval + 3) with ⟨evs, st2, t2, fin⟩
    rw [pollLoop, if_neg (by simp [hc])]
    simp only [hs, hpl]
    have h2 := ih (t + env.pollInterval + 3)
    rw [hpl] at h2
    exact h2

/-- C7. Backfill idempotence: when the feed holds nothing beyond the
current checkpoint (every fetch at that cursor returns the empty batch),
a run saves nothing — the store, checkpoint included, is unchanged — and
backfill ends immediately with BackfillDone carrying totalProcessed = 0,
followed by PollingStarted. -/
theorem c7_backfill_idempotence (env : Env) (st : StoreState) (fuelB fuelP : Nat)
    (hca : env.cancelAt = none)
    (hcp : ∀ t, env.cpFail t = false)
    (hfeed : ∀ t limit, env.fetch t limit st.lastProcessedID = .ok []) :
    (run env st (fuelB + 1) fuelP).store = st
    ∧ (run env st (fuelB + 1) fuelP).events.take 3 =
        [.backfillStarted 0 st.lastProcessedID, .backfillDone 0 4,
         .pollingStarted env.pollInterval] := by
  have hc1 : env.cancelled 1 = false := by simp [Env.cancelled, hca]
  have hs := syncBatch_empty_batch env st 1 hc1 (hcp 2) (hfeed 3 env.chunkSize)
  have hbl : backfillLoop env (fuelB + 1) st 0 1 = ([], st, 4, .completed 0) := by
    rw [backfillLoop]
    simp [hs]
  rcases hpl : pollLoop env fuelP st 4 with ⟨evs, st2, t2, fin⟩
  have hst2 : st2 = st := by
    have h2 := pollLoop_no_data env st hca hcp hfeed fuelP 4
    rw [hpl] at h2
    exact h2
  subst hst2
  unfold run
  rw [if_neg (by simp [hcp 0])]
  simp only [hbl, hpl]
  constructor <;> first | rfl | trivial

/-- C7 witness: rerunning over an exhausted feed from checkpoint 7. -/
theorem c7_backfill_idempotence_witness :
    (run (pureEnv 3 2 none []) ⟨[], some 7⟩ 1 2).store = ⟨[], some 7⟩
    ∧ (run (pureEnv 3 2 none []) ⟨[], some 7⟩ 1 2).events.take 3 =
        [.backfillStarted 0 7, .backfillDone 0 4, .pollingStarted 2] :=
  c7_backfill_idempotence (pureEnv 3 2 none []) ⟨[], some 7⟩ 0 2 rfl (fun _ => rfl)
    (fun _ _ => by simp [pureEnv, listFetch])

/-- Whenever a run emits a BackfillError at all, it emits exactly one, no
BackfillDone, no PollingStarted, and it has terminated. -/
lemma run_backfillError_cases (env : Env) (st : StoreState) (fuelB fuelP : Nat)
    (hex : ∃ e, Event.backfillError e ∈ (run env st fuelB fuelP).events) :
    (run env st fuelB fuelP).events.countP isBackfillError = 1
    ∧ (∀ tp d, Event.backfillDone tp d ∉ (run env st fuelB fuelP).events)
    ∧ (∀ i, Event.pollingStarted i ∉ (run env st fuelB fuelP).events)
    ∧ (run env st fuelB fuelP).finished = true := by
  obtain ⟨e, he⟩ := hex
  by_cases h0 : env.cpFail 0
  · have hr : run env st fuelB fuelP =
        { events := [.backfillError .checkpointRetrieval]
          store := st, finished := true, time := 1 } := by
      unfold run
      rw [if_pos h0]
    rw [hr]
    refine ⟨by simp [isBackfillError], by simp, by simp, rfl⟩
  · rcases hbl : backfillLoop env fuelB st 0 1 with ⟨evs, st1, t1, x⟩
    have hsh := backfillLoop_shape env fuelB st 0 1
    rw [hbl] at hsh
    have hnotbf : x ≠ BackfillExit.failed → ∀ ev ∈ evs, isBackfillError ev ≠ true := by
      intro hx
      rw [← List.countP_eq_zero]
      simpa [hx] using hsh.2
    cases x with
    | failed =>
      have hr : run env st fuelB fuelP =
          { events := Event.backfillStarted 0 st.lastProcessedID :: evs
            store := st1, finished := true, time := t1 } := by
        unfold run
        rw [if_neg h0]
        simp only [hbl]
      rw [hr]
      refine ⟨?_, ?_, ?_, rfl⟩
      · simpa [List.countP_cons, isBackfillError] using hsh.2
      · intro tp d hmem
        rcases List.mem_cons.mp hmem with h1 | h1
        · exact absurd h1 (by simp)
        · rcases hsh.1 _ h1 with ⟨y, hy⟩ | ⟨a, b, c, hy⟩ <;> simp at hy
      · intro i hmem
        rcases List.mem_cons.mp hmem with h1 | h1
        · exact absurd h1 (by simp)
        · rcases hsh.1 _ h1 with ⟨y, hy⟩ | ⟨a, b, c, hy⟩ <;> simp at hy
    | fuelOut =>
      have hr : run env st fuelB fuelP =
          { events := Event.backfillStarted 0 st.lastProcessedID :: evs
            store := st1, finished := false, time := t1 } := by
        unfold run
        rw [if_neg h0]
        simp only [hbl]
      rw [hr] at he
      rcases List.mem_cons.mp he with h1 | h1
      · exact absurd h1 (by simp)
      · have hbf := hnotbf (by simp) _ h1
        simp [isBackfillError] at hbf
    | completed total =>
      rcases hpl : pollLoop env fuelP st1 t1 with ⟨evs2, st2, t2, fin⟩
      have hps := pollLoop_shape env fuelP st1 t1
      rw [hpl] at hps
      have hr : run env st fuelB fuelP =
          { events := Event.backfillStarted 0 st.lastProcessedID ::
              evs ++ Event.backfillDone total (t1 - 0) ::
                Event.pollingStarted env.pollInterval :: evs2
            store := st2, finished := fin, time := t2 } := by
        unfold run
        rw [if_neg h0]
        simp only [hbl, hpl]
      rw [hr] at he
      rcases List.mem_cons.mp he with h1 | h1
      · exact absurd h1 (by simp)
      rcases List.mem_append.mp h1 with h2 | h2
      · have hbf := hnotbf (by simp) _ h2
        simp [isBackfillError] at hbf
      rcases List.mem_cons.mp h2 with h3 | h3
      · exact absurd h3 (by simp)
      rcases List.mem_cons.mp h3 with h4 | h4
      · exact absurd h4 (by simp)
      · rcases hps _ h4 with ⟨y, hy⟩ | ⟨y, hy⟩ | ⟨a, b, c, hy⟩ <;> simp at hy

/-- C5. Fatal versus transient errors: a sync-cycle error on the first
backfill cycle makes the run emit BackfillStarted then a single
BackfillError and stop; any run that emits a BackfillError emits exactly
one, never a BackfillDone or PollingStarted, and has terminated; and in
the concrete transient scenario a feed error on the first polling tick
yields a PollingError after which the loop continues and the next
successful tick still emits PollingSyncCompleted. -/
theorem c5_fatal_vs_transient :
    (∀ (env : Env) (st : StoreState) (fuelB fuelP : Nat) (e : SyncErr),
      env.cpFail 0 = false →
      (syncBatch env st 1).1 = .error e →
      (run env st (fuelB + 1) fuelP).events =
        [.backfillStarted 0 st.lastProcessedID, .backfillError e]
      ∧ (run env st (fuelB + 1) fuelP).finished = true)
    ∧ (∀ (env : Env) (st : StoreState) (fuelB fuelP : Nat),
      (∃ e, Event.backfillError e ∈ (run env st fuelB fuelP).events) →
      (run env st fuelB fuelP).events.countP isBackfillError = 1
      ∧ (∀ tp d, Event.backfillDone tp d ∉ (run env st fuelB fuelP).events)
      ∧ (∀ i, Event.pollingStarted i ∉ (run env st fuelB fuelP).events)
      ∧ (run env st fuelB fuelP).finished = true)
    ∧ (run transientErrEnv ⟨[], some 5⟩ 2 3).events =
        [.backfillStarted 0 5, .backfillDone 0 4, .pollingStarted 5,
         .pollingError .apiRequestFailed, .pollingSyncCompleted 0 5 10,
         .pollingShutdown .canceled] := by
  refine ⟨?_, fun env st fuelB fuelP hex => run_backfillError_cases env st fuelB fuelP hex, ?_⟩
  · intro env st fuelB fuelP e hcp hse
    rcases h : syncBatch env st 1 with ⟨o, st1, t1⟩
    have ho : o = .error e := by
      rw [h] at hse
      exact hse
    subst ho
    unfold run
    rw [if_neg (by simp [hcp])]
    have hbl : backfillLoop env (fuelB + 1) st 0 1 =
        ([.backfillError e], st1, t1, .failed) := by
      rw [backfillLoop]
      simp only [h]
    simp only [hbl]
    constructor <;> first | rfl | trivial
  · decide

/-- C5 witness: the two universal parts applied to the environment whose
feed errors on every call. -/
theorem c5_fatal_vs_transient_witness :
    ((run failFeedEnv ⟨[], some 0⟩ 3 0).events =
        [.backfillStarted 0 0, .backfillError .apiRequestFailed]
      ∧ (run failFeedEnv ⟨[], some 0⟩ 3 0).finished = true)
    ∧ (run failFeedEnv ⟨[], some 0⟩ 3 0).events.countP isBackfillError = 1 :=
  ⟨c5_fatal_vs_transient.1 failFeedEnv ⟨[], some 0⟩ 2 0 .apiRequestFailed rfl rfl,
   (c5_fatal_vs_transient.2.1 failFeedEnv ⟨[], some 0⟩ 3 0
     ⟨.apiRequestFailed, by decide⟩).1⟩

/-- C6 counterexample: with cancellation already in effect when the run
starts, the engine reports the cancellation as a BackfillError carrying
ctx.Err() and terminates without ever emitting a PollingShutdown — so
cancellation is not always surfaced through a PollingShutdown event, and
can be reported via an error event. -/
theorem c6_cancellation_counterexample :
    (run (pureEnv 2 5 (some 0) [mkTz 1]) ⟨[], some 0⟩ 10 3).events =
      [.backfillStarted 0 0, .backfillError (.ctxDone .canceled)]
    ∧ Event.pollingShutdown .canceled ∉
        (run (pureEnv 2 5 (some 0) [mkTz 1]) ⟨[], some 0⟩ 10 3).events
    ∧ Event.pollingShutdown .deadlineExceeded ∉
        (run (pureEnv 2 5 (some 0) [mkTz 1]) ⟨[], some 0⟩ 10 3).events
    ∧ (run (pureEnv 2 5 (some 0) [mkTz 1]) ⟨[], some 0⟩ 10 3).finished = true := by
  refine ⟨by decide, by decide, by decide, by decide⟩

/-- C6 amended: cancellation observed while the engine waits in the
polling select yields exactly one PollingShutdown whose Reason is the
cancellation cause verbatim, after which the loop stops, the stream closes
and the completion signal resolves; cancellation already in effect during
a backfill sync cycle is instead surfaced as that cycle's error. -/
theorem c6_cancellation_amended :
    (∀ (env : Env) (st : StoreState) (t fuel c : Nat),
      env.cancelAt = some c → c ≤ t + env.pollInterval →
      pollLoop env (fuel + 1) st t =
        ([.pollingShutdown env.cancelReason], st, t + env.pollInterval, true))
    ∧ (∀ (B I c : Nat) (r : CtxReason) (st : StoreState) (fuelB fuelP : Nat),
      2 ≤ c → c ≤ 4 + I →
      run (emptyFeedCancelEnv B I c r) st (fuelB + 1) (fuelP + 1) =
        { events := [.backfillStarted 0 st.lastProcessedID, .backfillDone 0 4,
                     .pollingStarted I, .pollingShutdown r]
          store := st, finished := true, time := 4 + I }) := by
  constructor
  · intro env st t fuel c h1 h2
    have hc : env.cancelled (t + env.pollInterval) = true := by
      simp [Env.cancelled, h1, h2]
    rw [pollLoop, if_pos hc]
  · intro B I c r st fuelB fuelP h2 h4
    have hc1 : (emptyFeedCancelEnv B I c r).cancelled 1 = false := by
      simp only [Env.cancelled, emptyFeedCancelEnv, decide_eq_false_iff_not]
      omega
    have hs := syncBatch_empty_batch (emptyFeedCancelEnv B I c r) st 1 hc1 rfl rfl
    have hbl : backfillLoop (emptyFeedCancelEnv B I c r) (fuelB + 1) st 0 1 =
        ([], st, 4, .completed 0) := by
      rw [backfillLoop]
      simp [hs]
    have hpc : (emptyFeedCancelEnv B I c r).cancelled
        (4 + (emptyFeedCancelEnv B I c r).pollInterval) = true := by
      simp only [Env.cancelled, emptyFeedCancelEnv, decide_eq_true_eq]
      omega
    have hpl : pollLoop (emptyFeedCancelEnv B I c r) (fuelP + 1) st 4 =
        ([.pollingShutdown r], st, 4 + I, true) := by
      rw [pollLoop, if_pos hpc]
      rfl
    unfold run
    rw [if_neg (by simp [emptyFeedCancelEnv])]
    simp only [hbl, hpl]
    rfl

/-- C6 amended witness: a deadline-expiry cancellation at time 3 observed
in the first polling wait. -/
theorem c6_cancellation_amended_witness :
    run (emptyFeedCancelEnv 1 5 3 .deadlineExceeded) ⟨[], some 0⟩ 1 1 =
      { events := [.backfillStarted 0 0, .backfillDone 0 4, .pollingStarted 5,
                   .pollingShutdown .deadlineExceeded]
        store := ⟨[], some 0⟩, finished := true, time := 9 } :=
  c6_cancellation_amended.2 1 5 3 .deadlineExceeded ⟨[], some 0⟩ 0 0
    (by decide) (by decide)

/-- C8. Every successful polling tick emits exactly one PollingSyncCompleted
event, whatever the fetched count (0 included); concretely, from checkpoint
5 with the feed serving the single record 6 on the first poll tick, that
tick advances the checkpoint to 6 and exactly one PollingSyncCompleted with
fetchedCount 1 appears. -/
theorem c8_polling_sync_completed :
    (∀ (env : Env) (st : StoreState) (t fuel : Nat) (r : SyncResult)
        (st1 : StoreState) (t1 : Nat),
      env.cancelled (t + env.pollInterval) = false →
      syncBatch env st (t + env.pollInterval) = (.ok r, st1, t1) →
      (pollLoop env (fuel + 1) st t).1 =
        Event.pollingSyncCompleted r.count r.checkpointID env.chunkSize ::
          (pollLoop env fuel st1 t1).1)
    ∧ run pollScenarioEnv ⟨[], some 5⟩ 2 2 =
        { events := [.backfillStarted 0 5, .backfillDone 0 4, .pollingStarted 5,
                     .pollingSyncCompleted 1 6 10, .pollingShutdown .canceled]
          store := ⟨[mkRec 6], some 6⟩, finished := true, time := 18 } := by
  constructor
  · intro env st t fuel r st1 t1 hca hs
    rw [pollLoop, if_neg (by simp [hca])]
    rcases hpl : pollLoop env fuel st1 t1 with ⟨evs, st2, t2, fin⟩
    simp only [hs, hpl]
  · decide

/-- C8 witness: one successful empty tick against the never-cancelled
empty feed. -/
theorem c8_polling_sync_completed_witness :
    (pollLoop (emptyFeedCancelEnv 1 5 100 .canceled) 1 ⟨[], some 0⟩ 0).1 =
      Event.pollingSyncCompleted 0 0 1 ::
        (pollLoop (emptyFeedCancelEnv 1 5 100 .canceled) 0 ⟨[], some 0⟩ 8).1 :=
  c8_polling_sync_completed.1 (emptyFeedCancelEnv 1 5 100 .canceled)
    ⟨[], some 0⟩ 0 0 ⟨0, 0⟩ ⟨[], some 0⟩ 8 rfl rfl

lemma tzRange_id_bounds : ∀ (n : Nat) (K : Int), ∀ d ∈ tzRange K n, K < d.id ∧ d.id ≤ K + n := by
  intro n
  induction n with
  | zero => intro K d hd; simp [tzRange] at hd
  | succ m ih =>
    intro K d hd
    rcases List.mem_cons.mp hd with rfl | h1
    · constructor
      · simp [mkTz]
      · simp only [mkTz]
        push_cast
        omega
    · obtain ⟨ha, hb⟩ := ih (K + 1) d h1
      constructor
      · omega
      · push_cast at hb ⊢
        omega

lemma tzRange_length : ∀ (n : Nat) (K : Int), (tzRange K n).length = n := by
  intro n
  induction n with
  | zero => intro K; rfl
  | succ m ih => intro K; simp [tzRange, ih (K + 1)]

lemma tzRange_add : ∀ (a : Nat) (K : Int) (b : Nat),
    tzRange K (a + b) = tzRange K a ++ tzRange (K + a) b := by
  intro a
  induction a with
  | zero => intro K b; simp [tzRange]
  | succ m ih =>
    intro K b
    rw [Nat.add_right_comm m 1 b]
    show mkTz (K + 1) :: tzRange (K + 1) (m + b) = _
    rw [ih (K + 1) b]
    have hc : K + 1 + (m : Int) = K + ((m + 1 : Nat) : Int) := by push_cast; ring
    rw [hc]
    rfl

lemma tzRange_filter_all (K : Int) (n : Nat) :
    (tzRange K n).filter (fun d => decide (K < d.id)) = tzRange K n := by
  rw [List.filter_eq_self]
  intro d hd
  simpa using (tzRange_id_bounds n K d hd).1

lemma tzRange_filter_none (K : Int) (n : Nat) (c : Int) (h : K + n ≤ c) :
    (tzRange K n).filter (fun d => decide (c < d.id)) = [] := by
  rw [List.filter_eq_nil_iff]
  intro d hd
  have hb := (tzRange_id_bounds n K d hd).2
  simp only [decide_eq_true_eq]
  omega

lemma tzRange_filter_cursor (K : Int) (a m : Nat) :
    (tzRange K (a + m)).filter (fun d => decide (K + (a : Int) < d.id)) = tzRange (K + a) m := by
  rw [tzRange_add, List.filter_append, tzRange_filter_none K a (K + a) (le_refl _),
    tzRange_filter_all (K + a) m]
  simp

lemma tzRange_take : ∀ (B m : Nat) (c : Int), (tzRange c m).take B = tzRange c (min B m) := by
  intro B
  induction B with
  | zero => intro m c; simp [tzRange]
  | succ k ih =>
    intro m c
    cases m with
    | zero => simp [tzRange]
    | succ m0 =>
      show mkTz (c + 1) :: (tzRange (c + 1) m0).take k = _
      rw [ih m0 (c + 1)]
      rw [Nat.succ_min_succ]
      rfl

lemma convert_tzRange : ∀ (n : Nat) (K : Int),
    convertTzktDelegations (tzRange K n) = recRange K n := by
  intro n
  induction n with
  | zero => intro K; rfl
  | succ m ih =>
    intro K
    show mkRec (K + 1) :: convertTzktDelegations (tzRange (K + 1) m) = _
    rw [ih (K + 1)]
    rfl

lemma recRange_id_bounds : ∀ (n : Nat) (K : Int), ∀ d ∈ recRange K n, K < d.id ∧ d.id ≤ K + n := by
  intro n
  induction n with
  | zero => intro K d hd; simp [recRange] at hd
  | succ m ih =>
    intro K d hd
    rcases List.mem_cons.mp hd with rfl | h1
    · constructor
      · simp [mkRec]
      · simp only [mkRec]
        push_cast
        omega
    · obtain ⟨ha, hb⟩ := ih (K + 1) d h1
      constructor
      · omega
      · push_cast at hb ⊢
        omega

lemma recRange_add : ∀ (a : Nat) (K : Int) (b : Nat),
    recRange K (a + b) = recRange K a ++ recRange (K + a) b := by
  intro a
  induction a with
  | zero => intro K b; simp [recRange]
  | succ m ih =>
    intro K b
    rw [Nat.add_right_comm m 1 b]
    show mkRec (K + 1) :: recRange (K + 1) (m + b) = _
    rw [ih (K + 1) b]
    have hc : K + 1 + (m : Int) = K + ((m + 1 : Nat) : Int) := by push_cast; ring
    rw [hc]
    rfl

lemma recRange_ascending : ∀ (n : Nat) (K : Int), Ascending (recRange K n) := by
  intro n
  induction n with
  | zero => intro K; exact List.Pairwise.nil
  | succ m ih =>
    intro K
    refine List.pairwise_cons.mpr ⟨?_, ih (K + 1)⟩
    intro d hd
    have := (recRange_id_bounds m (K + 1) d hd).1
    simpa [mkRec] using this

lemma recRange_ne_nil (c : Int) (m : Nat) : recRange c (m + 1) ≠ [] := by
  simp [recRange]

lemma recRange_lastId : ∀ (m : Nat) (c : Int), lastId (recRange c (m + 1)) = c + (m + 1 : Nat) := by
  intro m
  induction m with
  | zero => intro c; simp [recRange, lastId, mkRec]
  | succ k ih =>
    intro c
    have h1 : recRange c (k + 1 + 1) = mkRec (c + 1) :: recRange (c + 1) (k + 1) := rfl
    have h2 : recRange (c + 1) (k + 1) = mkRec (c + 1 + 1) :: recRange (c + 1 + 1) k := rfl
    rw [h1, h2]
    have h3 : lastId (mkRec (c + 1) :: mkRec (c + 1 + 1) :: recRange (c + 1 + 1) k) =
        lastId (mkRec (c + 1 + 1) :: recRange (c + 1 + 1) k) := by
      simp [lastId, List.getLast?]
    rw [h3, ← h2, ih (c + 1)]
    push_cast
    ring

lemma syncBatch_range_done (B I : Nat) (K : Int) (N : Nat) (t : Nat) :
    syncBatch (pureEnv B I none (tzRange K N)) ⟨recRange K N, some (K + N)⟩ t =
      (.ok ⟨0, K + N⟩, ⟨recRange K N, some (K + N)⟩, t + 3) := by
  have hfe : (pureEnv B I none (tzRange K N)).fetch (t + 2)
      (pureEnv B I none (tzRange K N)).chunkSize
      ((⟨recRange K N, some (K + (N : Int))⟩ : StoreState).lastProcessedID) = .ok [] := by
    show Except.ok (((tzRange K N).filter fun d => K + (N : Int) < d.id).take B) = .ok []
    rw [tzRange_filter_none K N (K + N) (le_refl _)]
    simp
  exact syncBatch_empty_batch _ _ t rfl rfl hfe

lemma syncBatch_range_step (B I : Nat) (K : Int) (a m0 mb0 : Nat) (t : Nat)
    (hmin : min B (m0 + 1) = mb0 + 1) :
    syncBatch (pureEnv B I none (tzRange K (a + (m0 + 1)))) ⟨recRange K a, some (K + a)⟩ t =
      (.ok ⟨mb0 + 1, K + (a : Int) + ((mb0 + 1 : Nat) : Int)⟩,
       ⟨recRange K (a + (mb0 + 1)), some (K + ((a + (mb0 + 1) : Nat) : Int))⟩, t + 4) := by
  have hfe : (pureEnv B I none (tzRange K (a + (m0 + 1)))).fetch (t + 2)
      (pureEnv B I none (tzRange K (a + (m0 + 1)))).chunkSize
      ((⟨recRange K a, some (K + (a : Int))⟩ : StoreState).lastProcessedID) =
      .ok (tzRange (K + a) (mb0 + 1)) := by
    show Except.ok (((tzRange K (a + (m0 + 1))).filter fun d => K + (a : Int) < d.id).take B) = _
    rw [tzRange_filter_cursor K a (m0 + 1), tzRange_take B (m0 + 1) (K + a), hmin]
  have hd : ∀ d ∈ recRange (K + a) (mb0 + 1), ¬ HasId (recRange K a) d.id := by
    intro d hdm ⟨r, hr, hri⟩
    have h1 := (recRange_id_bounds (mb0 + 1) (K + a) d hdm).1
    have h2 := (recRange_id_bounds a K r hr).2
    omega
  have hpair : (recRange (K + a) (mb0 + 1)).Pairwise fun x y => x.id ≠ y.id :=
    (recRange_ascending (mb0 + 1) (K + a)).imp fun hlt => ne_of_lt hlt
  have hsv : SaveBatchTx (fun _ => false) (⟨recRange K a, some (K + (a : Int))⟩ : StoreState)
      (recRange (K + a) (mb0 + 1)) =
      ({ delegations := recRange K (a + (mb0 + 1))
         checkpoint := some (K + ((a + (mb0 + 1) : Nat) : Int)) }, none) := by
    rw [Prod.ext_iff]
    refine ⟨?_, saveBatchTx_noFail_none _ _⟩
    rw [saveBatchTx_commit (recRange_ne_nil (K + a) mb0) (saveBatchTx_noFail_none _ _)]
    have hins : insertIgnoreConflicts (recRange K a) (recRange (K + a) (mb0 + 1)) =
        recRange K a ++ recRange (K + a) (mb0 + 1) :=
      insertIgnoreConflicts_disjoint hd hpair
    have hcp : lastId (recRange (K + a) (mb0 + 1)) = K + ((a + (mb0 + 1) : Nat) : Int) := by
      rw [recRange_lastId mb0 (K + a)]
      push_cast
      ring
    rw [hins, ← recRange_add a K (mb0 + 1), hcp]
  unfold syncBatch
  rw [if_neg (by simp [pureEnv, Env.cancelled])]
  rw [if_neg (by simp [pureEnv])]
  simp only [hfe]
  rw [if_neg (by simp [tzRange])]
  simp only [convert_tzRange]
  have hsf : (pureEnv B I none (tzRange K (a + (m0 + 1)))).saveFail (t + 3) =
      fun _ => false := rfl
  rw [hsf]
  simp only [hsv]
  have hlen : (tzRange (K + a) (mb0 + 1)).length = mb0 + 1 := tzRange_length _ _
  have hcp2 : lastId (recRange (K + a) (mb0 + 1)) = K + (a : Int) + ((mb0 + 1 : Nat) : Int) := by
    rw [recRange_lastId mb0 (K + a)]
  rw [hlen, hcp2]

lemma backfillLoop_range (B I : Nat) (hB : 0 < B) (K : Int) (N : Nat) :
    ∀ (fuel m a total t : Nat), m < fuel → a + m = N →
      ∃ evs t1,
        backfillLoop (pureEnv B I none (tzRange K N)) fuel
            ⟨recRange K a, some (K + a)⟩ total t =
          (evs, ⟨recRange K N, some (K + (N : Int))⟩, t1, .completed (total + m)) := by
  intro fuel
  induction fuel with
  | zero => intro m a total t hlt; omega
  | succ f ih =>
    intro m a total t hlt hN
    cases m with
    | zero =>
      have ha : a = N := by omega
      subst ha
      have hs := syncBatch_range_done B I K a t
      refine ⟨[], t + 3, ?_⟩
      rw [backfillLoop]
      simp only [hs]
      simp
    | succ m0 =>
      obtain ⟨mb0, hmb⟩ : ∃ k, min B (m0 + 1) = k + 1 := ⟨min B (m0 + 1) - 1, by omega⟩
      have hle : mb0 + 1 ≤ m0 + 1 := by
        rw [← hmb]
        exact Nat.min_le_right _ _
      have hs := syncBatch_range_step B I K a m0 mb0 t hmb
      rw [hN] at hs
      obtain ⟨evs, t1, hbl⟩ := ih (m0 + 1 - (mb0 + 1)) (a + (mb0 + 1))
        (total + (mb0 + 1)) (t + 4) (by omega) (by omega)
      refine ⟨Event.backfillSyncCompleted (mb0 + 1)
        (K + (a : Int) + ((mb0 + 1 : Nat) : Int)) B :: evs, t1, ?_⟩
      rw [backfillLoop]
      simp only [hs]
      rw [if_neg (by omega)]
      simp only [hbl]
      have harith : total + (mb0 + 1) + (m0 + 1 - (mb0 + 1)) = total + (m0 + 1) := by omega
      rw [harith]
      rfl

/-- C3. Backfill completeness: from checkpoint K against a feed holding
exactly the records K+1 .. K+N served in ascending id.gt pages of at most
B records, backfill persists exactly those N records, advances the
checkpoint to K+N, and emits BackfillDone with totalProcessed = N; in the
concrete 1,2,3 scenario with batch size 1 and checkpoint 0, the run emits
three BackfillSyncCompleted events with checkpoints 1, 2, 3, one
BackfillDone with totalProcessed 3, and the final checkpoint is 3. -/
theorem c3_backfill_completeness (K : Int) (N B I fuelB fuelP : Nat)
    (hB : 0 < B) (hfuel : N < fuelB) :
    ((run (pureEnv B I none (tzRange K N)) ⟨[], some K⟩ fuelB fuelP).store =
        ⟨recRange K N, some (K + N)⟩
      ∧ ∃ dur, Event.backfillDone N dur ∈
          (run (pureEnv B I none (tzRange K N)) ⟨[], some K⟩ fuelB fuelP).events)
    ∧ ((run (pureEnv 1 5 none (tzRange 0 3)) ⟨[], some 0⟩ 10 0).events =
        [.backfillStarted 0 0, .backfillSyncCompleted 1 1 1, .backfillSyncCompleted 1 2 1,
         .backfillSyncCompleted 1 3 1, .backfillDone 3 16, .pollingStarted 5]
      ∧ (run (pureEnv 1 5 none (tzRange 0 3)) ⟨[], some 0⟩ 10 0).store =
          ⟨[mkRec 1, mkRec 2, mkRec 3], some 3⟩) := by
  constructor
  · obtain ⟨evs, t1, hbl⟩ := backfillLoop_range B I hB K N fuelB N 0 0 1 hfuel (by omega)
    have hst0 : (⟨[], some K⟩ : StoreState) =
        ⟨recRange K 0, some (K + ((0 : Nat) : Int))⟩ := by
      simp [recRange]
    have hfe : ∀ t limit, (pureEnv B I none (tzRange K N)).fetch t limit
        ((⟨recRange K N, some (K + (N : Int))⟩ : StoreState).lastProcessedID) = .ok [] := by
      intro t limit
      show Except.ok (((tzRange K N).filter fun d => K + (N : Int) < d.id).take limit) = _
      rw [tzRange_filter_none K N (K + N) (le_refl _)]
      simp
    rcases hpl : pollLoop (pureEnv B I none (tzRange K N)) fuelP
      ⟨recRange K N, some (K + N)⟩ t1 with ⟨evs2, st2, t2, fin⟩
    have hst2 : st2 = ⟨recRange K N, some (K + N)⟩ := by
      have h2 := pollLoop_no_data (pureEnv B I none (tzRange K N))
        ⟨recRange K N, some (K + N)⟩ rfl (fun _ => rfl) hfe fuelP t1
      rw [hpl] at h2
      exact h2
    unfold run
    rw [if_neg (by simp [pureEnv])]
    rw [hst0]
    simp only [hbl, hpl]
    constructor
    · exact hst2
    · refine ⟨t1 - 0, ?_⟩
      have hz : 0 + N = N := Nat.zero_add N
      rw [hz]
      exact List.mem_cons_of_mem _ (List.mem_append_right _ (List.mem_cons_self _ _))
  · exact ⟨by decide, by decide⟩

/-- C3 witness: batch size 1, starting checkpoint 5, feed 6..7. -/
theorem c3_backfill_completeness_witness :
    (run (pureEnv 1 4 none (tzRange 5 2)) ⟨[], some 5⟩ 3 0).store =
        ⟨recRange 5 2, some (5 + (2 : Nat))⟩
    ∧ ∃ dur, Event.backfillDone 2 dur ∈
        (run (pureEnv 1 4 none (tzRange 5 2)) ⟨[], some 5⟩ 3 0).events :=
  (c3_backfill_completeness 5 2 1 4 3 0 (by decide) (by decide)).1

end Delegator
